import Mathlib

/-!
Verification of the netdata per-host ML anomaly-detection core.

The definitions below are a shallow embedding of the C++ sources under
src/ml/ (RollingBitCounter.{h,cc}, Unit.{h,cc}, Host.{h,cc},
kmeans/SamplesBuffer.cc).  Machine integers (size_t, unsigned, time_t)
are modelled as Nat or Int; C++ floating point (CalculatedNumber) is
modelled as the rationals.  Stateful member functions are modelled as
functions from the object state to the updated state (plus the return
value).  Definitions keep the names of the source entities.
-/

namespace ml

/-- State of ml::RollingBitCounter (RollingBitCounter.h): a circular
buffer of bits V, a maintained popcount NumSetBits, and the total
number of inserts N.  The constructor RollingBitCounter(Capacity)
initialises V to Capacity zero bits. -/
structure RollingBitCounter where
  V : List Bool
  NumSetBits : Nat
  N : Nat
deriving Repr, DecidableEq

/-- RollingBitCounter(Capacity) : V(Capacity, 0), NumSetBits(0), N(0). -/
def RollingBitCounter.init (Capacity : Nat) : RollingBitCounter :=
  { V := List.replicate Capacity false, NumSetBits := 0, N := 0 }

/-- RollingBitCounter::start(): if N <= V.size() then 0 else N % V.size(). -/
def RollingBitCounter.start (rbc : RollingBitCounter) : Nat :=
  if rbc.N ≤ rbc.V.length then 0 else rbc.N % rbc.V.length

/-- RollingBitCounter::size(): N < V.size() ? N : V.size(). -/
def RollingBitCounter.size (rbc : RollingBitCounter) : Nat :=
  if rbc.N < rbc.V.length then rbc.N else rbc.V.length

/-- RollingBitCounter::isFilled(): N >= V.size(). -/
def RollingBitCounter.isFilled (rbc : RollingBitCounter) : Bool :=
  rbc.V.length ≤ rbc.N

/-- RollingBitCounter::insert(Bit) from RollingBitCounter.cc:
if N >= V.size() then NumSetBits -= (V[start()] == true);
NumSetBits += (Bit == true); V[N++ % V.size()] = Bit.
The size_t decrement is modelled with truncated Nat subtraction; the
popcount invariant proved below shows it never underflows. -/
def RollingBitCounter.insert (rbc : RollingBitCounter) (Bit : Bool) : RollingBitCounter :=
  let S1 : Nat :=
    if rbc.V.length ≤ rbc.N then
      rbc.NumSetBits - (if rbc.V.getD rbc.start false then 1 else 0)
    else
      rbc.NumSetBits
  { V := rbc.V.set (rbc.N % rbc.V.length) Bit
    NumSetBits := S1 + (if Bit then 1 else 0)
    N := rbc.N + 1 }

/-- RollingBitCounter::getBuffer(): for Idx in [start(), start()+size())
push V[Idx % V.size()]. -/
def RollingBitCounter.getBuffer (rbc : RollingBitCounter) : List Bool :=
  (List.range' rbc.start rbc.size).map (fun Idx => rbc.V.getD (Idx % rbc.V.length) false)

/-- Folding RollingBitCounter::insert over a bit sequence, starting from
a freshly constructed counter of the given capacity. -/
def RollingBitCounter.run (Capacity : Nat) (bs : List Bool) : RollingBitCounter :=
  bs.foldl RollingBitCounter.insert (RollingBitCounter.init Capacity)

/-- ml::RollingBitWindow::State (RollingBitCounter.h). -/
inductive WState where
  | NotFilled
  | BelowThreshold
  | AboveThreshold
deriving Repr, DecidableEq

/-- Edge = std::pair of State, State. -/
abbrev WEdge := WState × WState

/-- State of ml::RollingBitWindow (RollingBitCounter.h). -/
structure RollingBitWindow where
  MinLength : Nat
  SetBitsThreshold : Nat
  CurrState : WState
  CurrLength : Nat
  PrevLength : Nat
  RBC : RollingBitCounter
deriving Repr, DecidableEq

/-- RollingBitWindow(MinLength, SetBitsThreshold): initial state
NotFilled, CurrLength = PrevLength = 0, counter of capacity MinLength. -/
def RollingBitWindow.init (MinLength SetBitsThreshold : Nat) : RollingBitWindow :=
  { MinLength := MinLength
    SetBitsThreshold := SetBitsThreshold
    CurrState := WState.NotFilled
    CurrLength := 0
    PrevLength := 0
    RBC := RollingBitCounter.init MinLength }

/-- The EdgeActions table of RollingBitWindow: each listed edge updates
CurrLength on entry; edges absent from the table (the two *-to-NotFilled
edges, which never occur) leave the state untouched. -/
def RollingBitWindow.applyAction (w : RollingBitWindow) (E : WEdge) : RollingBitWindow :=
  match E with
  | (WState.NotFilled, WState.NotFilled) => { w with CurrLength := w.CurrLength + 1 }
  | (WState.BelowThreshold, WState.BelowThreshold) => { w with CurrLength := w.MinLength }
  | (WState.AboveThreshold, WState.AboveThreshold) => { w with CurrLength := w.CurrLength + 1 }
  | (WState.NotFilled, WState.BelowThreshold) => { w with CurrLength := w.MinLength }
  | (WState.NotFilled, WState.AboveThreshold) => { w with CurrLength := w.CurrLength + 1 }
  | (WState.BelowThreshold, WState.AboveThreshold) => { w with CurrLength := w.MinLength }
  | (WState.AboveThreshold, WState.BelowThreshold) => { w with CurrLength := w.MinLength }
  | _ => w

/-- RollingBitWindow::insert(Bit) from RollingBitCounter.cc:
PrevLength = CurrLength; RBC.insert(Bit); compute the new state from
the current state and the counter; fire the edge action; return the
edge and PrevLength (the length captured before the transition). -/
def RollingBitWindow.insert (w : RollingBitWindow) (Bit : Bool) :
    RollingBitWindow × (WEdge × Nat) :=
  let w1 := { w with PrevLength := w.CurrLength }
  let rbc := w1.RBC.insert Bit
  let newState : WState :=
    match w1.CurrState with
    | WState.NotFilled =>
        if rbc.isFilled then
          if rbc.NumSetBits < w1.SetBitsThreshold then WState.BelowThreshold
          else WState.AboveThreshold
        else WState.NotFilled
    | WState.BelowThreshold =>
        if w1.SetBitsThreshold ≤ rbc.NumSetBits then WState.AboveThreshold
        else WState.BelowThreshold
    | WState.AboveThreshold =>
        if rbc.NumSetBits < w1.SetBitsThreshold then WState.BelowThreshold
        else WState.AboveThreshold
  let E : WEdge := (w1.CurrState, newState)
  let w2 := { w1 with CurrState := newState, RBC := rbc }
  let w3 := w2.applyAction E
  (w3, (E, w3.PrevLength))

/-- Folding RollingBitWindow::insert over a bit sequence, collecting
every returned (edge, previous length) pair in order. -/
def RollingBitWindow.runTrace (w : RollingBitWindow) : List Bool →
    RollingBitWindow × List (WEdge × Nat)
  | [] => (w, [])
  | b :: bs =>
      let r := w.insert b
      let rest := RollingBitWindow.runTrace r.1 bs
      (rest.1, r.2 :: rest.2)

/-- Folding RollingBitWindow::insert over a bit sequence, discarding the
returned edges. -/
def RollingBitWindow.runBits (w : RollingBitWindow) (bs : List Bool) : RollingBitWindow :=
  (w.runTrace bs).1

/-- The lengths reported at (AboveThreshold, BelowThreshold) falling
edges when a bit stream is fed into a fresh RollingBitWindow; this is
the insertBit collector of the RollingBitWindowTest in Test.cc. -/
def RollingBitWindow.fallingLengths (MinLength SetBitsThreshold : Nat) (bs : List Bool) :
    List Nat :=
  ((RollingBitWindow.init MinLength SetBitsThreshold).runTrace bs).2.filterMap
    (fun r =>
      if r.1 = (WState.AboveThreshold, WState.BelowThreshold) then some r.2 else none)

/-- The bit stream of scenarios S1, S2, S3 and S4 of the specification. -/
def specStream : List Bool :=
  [false, false, true, true, false, true, false, false, false, true, false, true,
   false, false]

/-- Detection state of ml::DetectableDimension (Unit.h): the
per-dimension rolling bit counter RBC, constructed with capacity
Cfg.DiffN, and the running tally BitCounter. -/
structure DetectableDimension where
  RBC : RollingBitCounter
  BitCounter : Nat
deriving Repr, DecidableEq

/-- Initial DetectableDimension state: RBC{Cfg.DiffN}, BitCounter{0}. -/
def DetectableDimension.init (DiffN : Nat) : DetectableDimension :=
  { RBC := RollingBitCounter.init DiffN, BitCounter := 0 }

/-- DetectableDimension::detect(): the anomaly bit produced by
predict() (an input here, since prediction consults external samples)
is added to BitCounter, inserted into RBC, and returned. -/
def DetectableDimension.detect (d : DetectableDimension) (AnomalyBit : Bool) :
    DetectableDimension × Bool :=
  ({ RBC := d.RBC.insert AnomalyBit
     BitCounter := d.BitCounter + (if AnomalyBit then 1 else 0) },
   AnomalyBit)

/-- DetectableDimension::reset(): BitCounter = RBC.numSetBits(). -/
def DetectableDimension.reset (d : DetectableDimension) : DetectableDimension :=
  { d with BitCounter := d.RBC.NumSetBits }

/-- DetectableDimension::anomalyRate(WindowLength): returns
BitCounter / WindowLength (double division modelled on the rationals)
and then snapshots BitCounter = RBC.numSetBits(). -/
def DetectableDimension.anomalyRate (d : DetectableDimension) (WindowLength : Nat) :
    Rat × DetectableDimension :=
  ((d.BitCounter : Rat) / (WindowLength : Rat),
   { d with BitCounter := d.RBC.NumSetBits })

/-- One call against a DetectableDimension, for quantifying over
arbitrary interleavings of the three operations. -/
inductive DimOp where
  | detect (b : Bool)
  | reset
  | rate (L : Nat)
deriving Repr, DecidableEq

/-- Folding an interleaving of detect/reset/anomalyRate calls over a
freshly constructed DetectableDimension. -/
def DetectableDimension.runOps (DiffN : Nat) (ops : List DimOp) : DetectableDimension :=
  ops.foldl
    (fun d op =>
      match op with
      | DimOp.detect b => (d.detect b).1
      | DimOp.reset => d.reset
      | DimOp.rate L => (d.anomalyRate L).2)
    (DetectableDimension.init DiffN)

/-- Folding only detect calls (the shape of the detection loop). -/
def dimDetectRun (DiffN : Nat) (bits : List Bool) : DetectableDimension :=
  bits.foldl (fun d b => (d.detect b).1) (DetectableDimension.init DiffN)

/-- ml::MLError (Unit.h). -/
inductive MLError where
  | Success
  | TryLockFailed
  | MissingData
  | ShouldNotTrainNow
  | NoModel
deriving Repr, DecidableEq

/-- Training-related state of ml::TrainableDimension (Unit.h): the
fitted model KM (abstracted to the sample vector it was last fitted on,
the KMeans numerical kernel being outside the embedded sources),
LastTrainedAt, HasModel, the anomaly score and the anomaly bit. -/
structure TrainableDimension where
  KM : Option (List Rat)
  LastTrainedAt : Int
  HasModel : Bool
  AnomalyScore : Rat
  AnomalyBit : Bool
deriving Repr, DecidableEq

/-- TrainableDimension::train(Now) from Unit.cc.  The try_lock outcome
and the (CNs, N) pair produced by getCalculatedNumbers (which reads
external storage) are inputs; Cfg.TrainEvery and the MinN derived from
Cfg.MinTrainSecs are parameters.  Note that LastTrainedAt is assigned
Now immediately after the ShouldNotTrainNow check, before any data is
fetched. -/
def TrainableDimension.train (d : TrainableDimension) (lockFree : Bool)
    (Now TrainEvery : Int) (MinN : Nat) (CNs : List Rat) (N : Nat) :
    MLError × TrainableDimension :=
  if ¬ lockFree then (MLError.TryLockFailed, d)
  else if Now ≤ d.LastTrainedAt + TrainEvery then (MLError.ShouldNotTrainNow, d)
  else
    let d1 := { d with LastTrainedAt := Now }
    if N < MinN then (MLError.MissingData, d1)
    else (MLError.Success, { d1 with KM := some CNs, HasModel := true })

/-- The sample count N computed by TrainableDimension::predict
(Unit.cc line 166): Cfg.DiffN + Cfg.SmoothN + Cfg.LagN, passed to
getCalculatedNumbers as both MinN and MaxN. -/
def predictSampleCount (DiffN SmoothN LagN : Nat) : Nat :=
  DiffN + SmoothN + LagN

/-- TrainableDimension::predict() from Unit.cc.  The try_lock outcome,
the (CNs, N) fetch result and the KMeans::anomalyScore function are
inputs; predict requests predictSampleCount samples, returns the
current anomaly bit with MissingData unless exactly that many were
fetched, and otherwise scores and rederives the bit. -/
def TrainableDimension.predict (d : TrainableDimension) (lockFree : Bool)
    (DiffN SmoothN LagN : Nat) (AnomalyScoreThreshold : Rat)
    (CNs : List Rat) (N : Nat) (anomalyScore : List Rat → Rat) :
    MLError × Bool × TrainableDimension :=
  if ¬ lockFree then (MLError.TryLockFailed, d.AnomalyBit, d)
  else if ¬ d.HasModel then (MLError.NoModel, d.AnomalyBit, d)
  else if N ≠ predictSampleCount DiffN SmoothN LagN then
    (MLError.MissingData, d.AnomalyBit, d)
  else
    let score := anomalyScore CNs
    let bit := decide (AnomalyScoreThreshold ≤ score)
    (MLError.Success, bit, { d with AnomalyScore := score, AnomalyBit := bit })

/-- The set-bits threshold of the host RollingBitWindow (Host.h lines
26-29): static_cast of Cfg.ADWindowSize * Cfg.ADWindowRateThreshold to
size_t, which truncates the nonnegative product toward zero. -/
def rbwSetBitsThreshold (ADWindowSize : Nat) (ADWindowRateThreshold : Rat) : Nat :=
  (Int.floor ((ADWindowSize : Rat) * ADWindowRateThreshold)).toNat

/-- The RollingBitWindow member RBW of DetectableHost (Host.h). -/
def hostRBW (ADWindowSize : Nat) (ADWindowRateThreshold : Rat) : RollingBitWindow :=
  RollingBitWindow.init ADWindowSize
    (rbwSetBitsThreshold ADWindowSize ADWindowRateThreshold)

/-- A dimension as the detection loop sees it: an identifier plus the
DetectableDimension state.  Identifiers are naturals here; the source
uses the id C-string only as sort key and payload entry. -/
structure MLDim where
  id : Nat
  det : DetectableDimension
deriving Repr, DecidableEq

/-- The Cfg fields read by DetectableHost<Host>::detectOnce. -/
structure DetectConfig where
  AnomalyRateThreshold : Rat
  ADUnitRateThreshold : Rat
deriving Repr, DecidableEq

/-- An anomaly record as handed to Database::insertAnomaly by
detectOnce: the after/before timestamps and the ranked payload of
(rate, dimension id) pairs. -/
structure AnomalyRecord where
  after : Int
  before : Int
  payload : List (Rat × Nat)
deriving Repr, DecidableEq

/-- Ascending lexicographic order on (rate, id) pairs: the comparison
std::sort uses on std::pair<double, std::string>. -/
def pairLe (a b : Rat × Nat) : Prop :=
  a.1 < b.1 ∨ (a.1 = b.1 ∧ a.2 ≤ b.2)

instance : DecidableRel pairLe := fun a b => by
  unfold pairLe
  infer_instance

instance : IsTotal (Rat × Nat) pairLe :=
  ⟨by
    intro a b
    unfold pairLe
    rcases lt_trichotomy a.1 b.1 with h | h | h
    · exact Or.inl (Or.inl h)
    · rcases Nat.le_total a.2 b.2 with h2 | h2
      · exact Or.inl (Or.inr ⟨h, h2⟩)
      · exact Or.inr (Or.inr ⟨h.symm, h2⟩)
    · exact Or.inr (Or.inl h)⟩

instance : IsTrans (Rat × Nat) pairLe :=
  ⟨by
    intro a b c hab hbc
    unfold pairLe at *
    rcases hab with h1 | ⟨h1, h1n⟩ <;> rcases hbc with h2 | ⟨h2, h2n⟩
    · exact Or.inl (h1.trans h2)
    · exact Or.inl (h2 ▸ h1)
    · exact Or.inl (h1 ▸ h2)
    · exact Or.inr ⟨h1.trans h2, h1n.trans h2n⟩⟩

/-- std::sort ascending by (rate, id) followed by std::reverse, as in
detectOnce. -/
def sortDescending (l : List (Rat × Nat)) : List (Rat × Nat) :=
  (l.insertionSort pairLe).reverse

/-- The body of the first forEachDimension sweep of detectOnce: an
optional reset(), then detect(), accumulating the updated dimensions
and the count of anomalous ones.  Each dimension carries the anomaly
bit its predict() yields this tick. -/
def detectStep (ResetBitCounter : Bool) (acc : List MLDim × Nat)
    (db : MLDim × Bool) : List MLDim × Nat :=
  let d0 := if ResetBitCounter then { db.1 with det := db.1.det.reset } else db.1
  let r := d0.det.detect db.2
  (acc.1 ++ [{ d0 with det := r.1 }], acc.2 + (if r.2 then 1 else 0))

/-- The body of the second forEachDimension sweep of detectOnce:
anomalyRate(WindowLength) on every dimension, keeping the (rate, id)
pairs whose rate reaches ADUnitRateThreshold. -/
def rateStep (ADUnitRateThreshold : Rat) (WindowLength : Nat)
    (acc : List MLDim × List (Rat × Nat)) (d : MLDim) :
    List MLDim × List (Rat × Nat) :=
  let r := d.det.anomalyRate WindowLength
  (acc.1 ++ [{ d with det := r.2 }],
   if r.1 < ADUnitRateThreshold then acc.2 else acc.2 ++ [(r.1, d.id)])

/-- DetectableHost<Host>::detectOnce from Host.cc.  Inputs: the window,
the stored host AnomalyRate, the dimensions paired with this tick's
predicted bits, and the current realtime second.  Returns the new
window, the recomputed host rate, the updated dimensions, and the
record handed to Database::insertAnomaly, if any. -/
def detectOnce (cfg : DetectConfig) (RBW : RollingBitWindow) (AnomalyRate : Rat)
    (dims : List (MLDim × Bool)) (Now : Int) :
    RollingBitWindow × Rat × List MLDim × Option AnomalyRecord :=
  let p := RBW.insert (decide (cfg.AnomalyRateThreshold ≤ AnomalyRate))
  let RBW1 := p.1
  let E := p.2.1
  let WindowLength := p.2.2
  let ResetBitCounter : Bool :=
    decide (E.1 = WState.BelowThreshold ∧ E.2 = WState.BelowThreshold)
  let NumTotalDimensions := dims.length
  let swept := dims.foldl (detectStep ResetBitCounter) ([], 0)
  let dims1 := swept.1
  let NumAnomalousDimensions := swept.2
  let AnomalyRate1 : Rat :=
    if NumAnomalousDimensions ≠ 0 then
      (NumAnomalousDimensions : Rat) / (NumTotalDimensions : Rat)
    else 0
  let NewAnomalyEvent : Bool :=
    decide (E.1 = WState.AboveThreshold ∧ E.2 = WState.BelowThreshold)
  if ¬ NewAnomalyEvent then (RBW1, AnomalyRate1, dims1, none)
  else
    let swept2 := dims1.foldl (rateStep cfg.ADUnitRateThreshold WindowLength) ([], [])
    let dims2 := swept2.1
    let AnomalousUnits := swept2.2
    if AnomalousUnits = [] then (RBW1, AnomalyRate1, dims2, none)
    else
      (RBW1, AnomalyRate1, dims2,
        some { after := Now - (WindowLength : Int), before := Now,
               payload := sortDescending AnomalousUnits })

/-- The contribution of one dimension to an anomaly event closing with
window length L: its post-detect tally divided by L, kept when the
rate reaches ADUnitRateThreshold. -/
def eventCandidate (cfg : DetectConfig) (L : Nat) (db : MLDim × Bool) :
    Option (Rat × Nat) :=
  let tally := db.1.det.BitCounter + (if db.2 then 1 else 0)
  let r : Rat := (tally : Rat) / (L : Rat)
  if r < cfg.ADUnitRateThreshold then none else some (r, db.1.id)

/-- A SamplesBuffer (kmeans/SamplesBuffer.cc): the sample block viewed
as NumSamples rows of NumDimsPerSample entries, plus the preprocessing
configuration.  SamplesBuffer.h is not among the embedded sources; the
flat CalculatedNumber block is viewed per row, as the spec describes. -/
structure SamplesBuffer where
  buf : List (List Rat)
  NumSamples : Nat
  NumDimsPerSample : Nat
  DiffN : Nat
  SmoothN : Nat
  LagN : Nat
deriving Repr

/-- Sample::diff — Modelled from the spec: Sample.h is missing from the
sources; LHS.diff(RHS) subtracts elementwise. -/
def sampleDiff (a b : List Rat) : List Rat :=
  List.zipWith (fun x y => x - y) a b

/-- Sample::add — Modelled from the spec: elementwise sum. -/
def sampleAdd (a b : List Rat) : List Rat :=
  List.zipWith (fun x y => x + y) a b

/-- Sample::scale — Modelled from the spec: multiply every entry. -/
def sampleScale (f : Rat) (a : List Rat) : List Rat :=
  a.map (fun x => f * x)

/-- SamplesBuffer::diffSamples: for Idx in [0, NumSamples - DiffN),
High = NumSamples - 1 - Idx, Low = High - DiffN, row High -= row Low,
in place, newest row first. -/
def SamplesBuffer.diffSamples (sb : SamplesBuffer) : SamplesBuffer :=
  let buf1 :=
    (List.range (sb.NumSamples - sb.DiffN)).foldl
      (fun buf Idx =>
        let High := sb.NumSamples - 1 - Idx
        let Low := High - sb.DiffN
        buf.set High (sampleDiff (buf.getD High []) (buf.getD Low [])))
      sb.buf
  { sb with buf := buf1 }

/-- SamplesBuffer::smoothSamples: trailing moving average of window
SmoothN applied back to front with accumulator Acc and scratch window
sum Tmp, exactly as the loop in SamplesBuffer.cc: the loop index runs
from NumSamples down to DiffN + SmoothN - 1 exclusive; when the next
window exists, Tmp drops the current row and adds row
Idx - (SmoothN + 1); the current row is overwritten with Acc, and Acc
becomes Tmp / SmoothN. -/
def SamplesBuffer.smoothSamples (sb : SamplesBuffer) : SamplesBuffer :=
  let Factor : Rat := 1 / (sb.SmoothN : Rat)
  let zero : List Rat := List.replicate sb.NumDimsPerSample 0
  let Tmp0 :=
    (List.range (min sb.SmoothN sb.NumSamples)).foldl
      (fun Tmp Idx => sampleAdd Tmp (sb.buf.getD (sb.NumSamples - (Idx + 1)) []))
      zero
  let Acc0 := sampleScale Factor (sampleAdd zero Tmp0)
  let loop :=
    (List.range (sb.NumSamples - (sb.DiffN + sb.SmoothN - 1))).foldl
      (fun (st : List (List Rat) × List Rat × List Rat) k =>
        let Idx := sb.NumSamples - k
        let S := st.1.getD (Idx - 1) []
        let Tmp1 :=
          if sb.SmoothN + 1 ≤ Idx then
            sampleAdd (sampleDiff st.2.2 S) (st.1.getD (Idx - (sb.SmoothN + 1)) [])
          else st.2.2
        let buf1 := st.1.set (Idx - 1) st.2.1
        let Acc1 := sampleScale Factor Tmp1
        (buf1, Acc1, Tmp1))
      (sb.buf, Acc0, Tmp0)
  { sb with buf := loop.1 }

/-- getPreprocessedSample with the lag applied — Modelled from the spec:
SamplesBuffer.h (the preprocessed-sample layout written by lagSamples)
is missing from the sources; row Idx is the concatenation of the
LagN + 1 adjacent historical rows Idx, Idx - 1, ..., Idx - LagN.  For
LagN = 0 this is the row itself, matching the early return of
lagSamples. -/
def SamplesBuffer.prepRow (sb : SamplesBuffer) (Idx : Nat) : List Rat :=
  ((List.range (sb.LagN + 1)).map (fun k => sb.buf.getD (Idx - k) [])).flatten

/-- DSample construction in preprocess: DS.set_size(NumDimsPerSample *
(LagN + 1)) followed by Sample::initDSample filling the entries; the
content is truncated or zero-padded to the set size. -/
def mkDSample (size : Nat) (content : List Rat) : List Rat :=
  content.take size ++ List.replicate (size - content.length) 0

/-- SamplesBuffer::preprocess from SamplesBuffer.cc: the OutN guard
arithmetic, the in-place diff and smooth stages, and the extraction of
the final OutN lag-expanded rows. -/
def SamplesBuffer.preprocess (sb : SamplesBuffer) : List (List Rat) :=
  let OutN0 := sb.NumSamples
  if sb.DiffN ≥ OutN0 then []
  else
    let OutN1 := OutN0 - sb.DiffN
    let sb1 := sb.diffSamples
    if sb1.SmoothN = 0 ∨ sb1.SmoothN > OutN1 then []
    else
      let OutN2 := OutN1 - (sb1.SmoothN - 1)
      let sb2 := sb1.smoothSamples
      if sb2.LagN ≥ OutN2 then []
      else
        let OutN3 := OutN2 - sb2.LagN
        (List.range' (sb2.NumSamples - OutN3) OutN3).map
          (fun Idx =>
            mkDSample (sb2.NumDimsPerSample * (sb2.LagN + 1)) (sb2.prepRow Idx))

/-- The S5 SamplesBuffer: rows = 20, in_dims = 1, DiffN = 1,
SmoothN = 3, LagN = 5 (sample values immaterial for the shape). -/
def sbS5 : SamplesBuffer :=
  { buf := List.replicate 20 [0]
    NumSamples := 20
    NumDimsPerSample := 1
    DiffN := 1
    SmoothN := 3
    LagN := 5 }

/-- A fresh TrainableDimension whose LastTrainedAt is 0, for concrete
training scenarios. -/
def trainState0 : TrainableDimension :=
  { KM := none
    LastTrainedAt := 0
    HasModel := false
    AnomalyScore := 0
    AnomalyBit := false }

/-- A detection configuration with both thresholds 1, for concrete
detection scenarios. -/
def hostCfgEx : DetectConfig :=
  { AnomalyRateThreshold := 1, ADUnitRateThreshold := 1 }

/-- A host window of capacity 2 and threshold 2 driven to
AboveThreshold by two set bits. -/
def hostRBWEx : RollingBitWindow :=
  ((RollingBitWindow.init 2 2).runTrace [true, true]).1

/-- A dimension with a tally of 5 anomalous ticks, for concrete
detection scenarios. -/
def dimEx : MLDim :=
  { id := 7, det := { RBC := RollingBitCounter.init 3, BitCounter := 5 } }

/-- Unfolding a run over an appended bit: the counter processes the last
bit with one more call to RollingBitCounter::insert. -/
theorem RollingBitCounter.run_append (C : Nat) (bs : List Bool) (b : Bool) :
    RollingBitCounter.run C (bs ++ [b]) = (RollingBitCounter.run C bs).insert b := by
  simp [RollingBitCounter.run, List.foldl_append]

/-- The insertion counter N counts the inserts performed. -/
theorem RollingBitCounter.run_N (C : Nat) (bs : List Bool) :
    (RollingBitCounter.run C bs).N = bs.length := by
  induction bs using List.reverseRecOn with
  | nil => rfl
  | append_singleton bs b ih =>
      rw [RollingBitCounter.run_append]
      simp [RollingBitCounter.insert, ih]

/-- The circular buffer keeps its construction-time capacity. -/
theorem RollingBitCounter.run_V_length (C : Nat) (bs : List Bool) :
    (RollingBitCounter.run C bs).V.length = C := by
  induction bs using List.reverseRecOn with
  | nil => simp [RollingBitCounter.run, RollingBitCounter.init]
  | append_singleton bs b ih =>
      rw [RollingBitCounter.run_append]
      simp [RollingBitCounter.insert, ih]

/-- Slot j % C of the circular buffer holds bit j of the inserted
sequence, provided j is the most recent insert that touched its slot
(that is, j lies in the final window of C inserts). -/
theorem RollingBitCounter.run_V_getD (C : Nat) (hC : 1 ≤ C) (bs : List Bool) :
    ∀ j, j < bs.length → bs.length ≤ j + C →
      (RollingBitCounter.run C bs).V.getD (j % C) false = bs.getD j false := by
  induction bs using List.reverseRecOn with
  | nil => intro j hj _; simp at hj
  | append_singleton bs b ih =>
      intro j hj hwin
      rw [RollingBitCounter.run_append]
      have hN : (RollingBitCounter.run C bs).N = bs.length :=
        RollingBitCounter.run_N C bs
      have hVlen : (RollingBitCounter.run C bs).V.length = C :=
        RollingBitCounter.run_V_length C bs
      have hset :
          ((RollingBitCounter.run C bs).insert b).V
            = (RollingBitCounter.run C bs).V.set (bs.length % C) b := by
        simp [RollingBitCounter.insert, hN, hVlen]
      rw [hset]
      simp only [List.length_append, List.length_singleton] at hj hwin
      rcases Nat.lt_or_ge j bs.length with hlt | hge
      · -- an older slot, untouched by this insert
        have hmodne : bs.length % C ≠ j % C := by
          intro hmod
          have hle : j ≤ bs.length := Nat.le_of_lt hlt
          have hdvd : C ∣ bs.length - j :=
            (Nat.modEq_iff_dvd' hle).mp hmod.symm
          have hpos : 0 < bs.length - j := by omega
          have := Nat.le_of_dvd hpos hdvd
          omega
        have hjC : j % C < C := Nat.mod_lt _ (by omega)
        have hlC : bs.length % C < C := Nat.mod_lt _ (by omega)
        rw [List.getD_eq_getElem _ _ (by simpa [hVlen])]
        rw [List.getElem_set_ne hmodne]
        rw [← List.getD_eq_getElem _ _ (by simpa [hVlen] using hjC)]
        rw [ih j hlt (by omega)]
        rw [List.getD_eq_getElem _ _ hlt, List.getD_eq_getElem _ _ (by simpa using hj)]
        rw [List.getElem_append_left hlt]
      · -- j is the slot just written
        have hj' : j = bs.length := by omega
        subst hj'
        have hjC : bs.length % C < C := Nat.mod_lt _ (by omega)
        rw [List.getD_eq_getElem _ _ (by simp [hVlen]; omega),
          List.getD_eq_getElem _ _ (by simp)]
        rw [List.getElem_set_self]
        rw [List.getElem_append_right (Nat.le_refl _)]
        simp

/-- The maintained popcount of a run equals the number of set bits among
the last C inserted bits (the current window). -/
theorem RollingBitCounter.run_NumSetBits (C : Nat) (hC : 1 ≤ C) (bs : List Bool) :
    (RollingBitCounter.run C bs).NumSetBits
      = (bs.drop (bs.length - C)).count true := by
  induction bs using List.reverseRecOn with
  | nil => simp [RollingBitCounter.run, RollingBitCounter.init]
  | append_singleton bs b ih =>
      rw [RollingBitCounter.run_append]
      have hN : (RollingBitCounter.run C bs).N = bs.length :=
        RollingBitCounter.run_N C bs
      have hVlen : (RollingBitCounter.run C bs).V.length = C :=
        RollingBitCounter.run_V_length C bs
      rcases Nat.lt_or_ge bs.length C with hlt | hge
      · -- counter not yet full: no eviction
        have hnotfull : ¬ (RollingBitCounter.run C bs).V.length
            ≤ (RollingBitCounter.run C bs).N := by
          rw [hN, hVlen]; omega
        have hdrop0 : bs.length - C = 0 := by omega
        have hdrop1 : bs.length + 1 - C = 0 := by omega
        simp only [RollingBitCounter.insert, if_neg hnotfull]
        simp [ih, hdrop0, hdrop1, List.count_append]
        cases b <;> simp
      · -- counter full: the bit at slot N % C is evicted
        have hfull : (RollingBitCounter.run C bs).V.length
            ≤ (RollingBitCounter.run C bs).N := by
          rw [hN, hVlen]; exact hge
        have hstart : (RollingBitCounter.run C bs).start = bs.length % C := by
          unfold RollingBitCounter.start
          rw [hN, hVlen]
          rcases Nat.lt_or_ge C bs.length with h1 | h1
          · rw [if_neg (by omega)]
          · have : bs.length = C := by omega
            rw [if_pos (by omega), this, Nat.mod_self]
        have hevict :
            (RollingBitCounter.run C bs).V.getD (bs.length % C) false
              = bs.getD (bs.length - C) false := by
          have hmod : (bs.length - C) % C = bs.length % C := by
            conv_rhs => rw [show bs.length = bs.length - C + C by omega]
            rw [Nat.add_mod_right]
          rw [← hmod]
          exact RollingBitCounter.run_V_getD C hC bs (bs.length - C)
            (by omega) (by omega)
        have hidx : bs.length - C < bs.length := by omega
        have hcons : bs.drop (bs.length - C)
            = bs.getD (bs.length - C) false :: bs.drop (bs.length - C + 1) := by
          rw [List.getD_eq_getElem _ _ hidx]
          exact List.drop_eq_getElem_cons hidx
        have hsucc : bs.length + 1 - C = bs.length - C + 1 := by omega
        have hdropapp : (bs ++ [b]).drop (bs.length - C + 1)
            = bs.drop (bs.length - C + 1) ++ [b] :=
          List.drop_append_of_le_length (by omega)
        simp only [RollingBitCounter.insert, if_pos hfull, hstart, hevict]
        rw [List.length_append, List.length_singleton, hsucc, hdropapp]
        rw [ih, hcons]
        simp only [List.count_cons, List.count_append]
        rcases bs.getD (bs.length - C) false with _ | _ <;> rcases b with _ | _ <;> simp

/-- The copy-out buffer of a run is exactly the last C inserted bits in
insertion order. -/
theorem RollingBitCounter.run_getBuffer (C : Nat) (hC : 1 ≤ C) (bs : List Bool) :
    (RollingBitCounter.run C bs).getBuffer = bs.drop (bs.length - C) := by
  have hN : (RollingBitCounter.run C bs).N = bs.length :=
    RollingBitCounter.run_N C bs
  have hVlen : (RollingBitCounter.run C bs).V.length = C :=
    RollingBitCounter.run_V_length C bs
  have hsize : (RollingBitCounter.run C bs).size = min bs.length C := by
    unfold RollingBitCounter.size
    rw [hN, hVlen]
    rcases Nat.lt_or_ge bs.length C with h | h
    · rw [if_pos h]; omega
    · rw [if_neg (by omega)]; omega
  apply List.ext_getElem
  · simp [RollingBitCounter.getBuffer, hsize]
    omega
  · intro i h1 h2
    simp only [RollingBitCounter.getBuffer, List.getElem_map, List.getElem_range', hVlen]
    rcases Nat.lt_or_ge bs.length C with hlt | hge
    · -- not yet full: start = 0
      have hstart : (RollingBitCounter.run C bs).start = 0 := by
        unfold RollingBitCounter.start
        rw [hN, hVlen, if_pos (by omega)]
      have hi : i < bs.length := by
        simp [RollingBitCounter.getBuffer, hsize] at h1
        omega
      rw [hstart]
      have hmodi : (0 + 1 * i) % C = i := by
        simp [Nat.mod_eq_of_lt (by omega : i < C)]
      rw [hmodi]
      have hgetD := RollingBitCounter.run_V_getD C hC bs i hi (by omega)
      rw [Nat.mod_eq_of_lt (by omega : i < C)] at hgetD
      rw [hgetD]
      rw [List.getD_eq_getElem _ _ hi]
      have hdrop0 : bs.length - C = 0 := by omega
      simp [hdrop0]
    · -- full: start = length % C, window of size C
      have hstart2 : (RollingBitCounter.run C bs).start = bs.length % C := by
        unfold RollingBitCounter.start
        rw [hN, hVlen]
        rcases Nat.lt_or_ge C bs.length with h1 | h1
        · rw [if_neg (by omega)]
        · have : bs.length = C := by omega
          rw [if_pos (by omega), this, Nat.mod_self]
      have hi : i < C := by
        simp [RollingBitCounter.getBuffer, hsize] at h1
        omega
      rw [hstart2]
      have hmod2 : (bs.length % C + 1 * i) % C = (bs.length - C + i) % C := by
        rw [Nat.one_mul, Nat.mod_add_mod]
        conv_rhs => rw [show bs.length - C + i = bs.length + i - C by omega]
        conv_lhs => rw [show bs.length + i = (bs.length + i - C) + C by omega]
        rw [Nat.add_mod_right]
      rw [hmod2]
      rw [RollingBitCounter.run_V_getD C hC bs (bs.length - C + i) (by omega) (by omega)]
      rw [List.getD_eq_getElem _ _ (by omega)]
      simp [List.getElem_drop]


/-- The rolling counter inside a detect-only run is exactly a
RollingBitCounter run over the same bits. -/
theorem dimDetectRun_RBC (DiffN : Nat) (bits : List Bool) :
    (dimDetectRun DiffN bits).RBC = RollingBitCounter.run DiffN bits := by
  induction bits using List.reverseRecOn with
  | nil => rfl
  | append_singleton bs b ih =>
      rw [RollingBitCounter.run_append, ← ih]
      simp [dimDetectRun, List.foldl_append, DetectableDimension.detect]

/-- The edge actions only update CurrLength: MinLength is untouched. -/
theorem RollingBitWindow.applyAction_MinLength (w : RollingBitWindow) (E : WEdge) :
    (w.applyAction E).MinLength = w.MinLength := by
  rcases E with ⟨e1, e2⟩
  cases e1 <;> cases e2 <;> rfl

/-- The edge actions only update CurrLength: the threshold is untouched. -/
theorem RollingBitWindow.applyAction_SetBitsThreshold (w : RollingBitWindow) (E : WEdge) :
    (w.applyAction E).SetBitsThreshold = w.SetBitsThreshold := by
  rcases E with ⟨e1, e2⟩
  cases e1 <;> cases e2 <;> rfl

/-- The edge actions only update CurrLength: the counter is untouched. -/
theorem RollingBitWindow.applyAction_RBC (w : RollingBitWindow) (E : WEdge) :
    (w.applyAction E).RBC = w.RBC := by
  rcases E with ⟨e1, e2⟩
  cases e1 <;> cases e2 <;> rfl

/-- The edge actions only update CurrLength: PrevLength is untouched. -/
theorem RollingBitWindow.applyAction_PrevLength (w : RollingBitWindow) (E : WEdge) :
    (w.applyAction E).PrevLength = w.PrevLength := by
  rcases E with ⟨e1, e2⟩
  cases e1 <;> cases e2 <;> rfl

/-- The edge actions only update CurrLength: CurrState is untouched. -/
theorem RollingBitWindow.applyAction_CurrState (w : RollingBitWindow) (E : WEdge) :
    (w.applyAction E).CurrState = w.CurrState := by
  rcases E with ⟨e1, e2⟩
  cases e1 <;> cases e2 <;> rfl

/-- RollingBitWindow::insert leaves MinLength unchanged. -/
theorem RollingBitWindow.insert_MinLength (w : RollingBitWindow) (b : Bool) :
    ((w.insert b).1).MinLength = w.MinLength := by
  simp [RollingBitWindow.insert, RollingBitWindow.applyAction_MinLength]

/-- RollingBitWindow::insert leaves the threshold unchanged. -/
theorem RollingBitWindow.insert_SetBitsThreshold (w : RollingBitWindow) (b : Bool) :
    ((w.insert b).1).SetBitsThreshold = w.SetBitsThreshold := by
  simp [RollingBitWindow.insert, RollingBitWindow.applyAction_SetBitsThreshold]

/-- RollingBitWindow::insert feeds the bit into the inner counter. -/
theorem RollingBitWindow.insert_RBC (w : RollingBitWindow) (b : Bool) :
    ((w.insert b).1).RBC = w.RBC.insert b := by
  simp [RollingBitWindow.insert, RollingBitWindow.applyAction_RBC]

/-- RollingBitWindow::insert returns the length captured before the
transition applies. -/
theorem RollingBitWindow.insert_returns_prev (w : RollingBitWindow) (b : Bool) :
    (w.insert b).2.2 = w.CurrLength := by
  simp [RollingBitWindow.insert, RollingBitWindow.applyAction_PrevLength]

/-- The first component of the returned edge is the state before the
insert. -/
theorem RollingBitWindow.insert_edge_fst (w : RollingBitWindow) (b : Bool) :
    (w.insert b).2.1.1 = w.CurrState := by
  simp [RollingBitWindow.insert]

/-- The second component of the returned edge is the state after the
insert. -/
theorem RollingBitWindow.insert_edge_snd (w : RollingBitWindow) (b : Bool) :
    ((w.insert b).1).CurrState = (w.insert b).2.1.2 := by
  simp [RollingBitWindow.insert, RollingBitWindow.applyAction_CurrState]

/-- Unfolding a trace over concatenated input. -/
theorem RollingBitWindow.runTrace_append (w : RollingBitWindow) (xs ys : List Bool) :
    w.runTrace (xs ++ ys)
      = ((((w.runTrace xs).1).runTrace ys).1,
         (w.runTrace xs).2 ++ (((w.runTrace xs).1).runTrace ys).2) := by
  induction xs generalizing w with
  | nil => simp [RollingBitWindow.runTrace]
  | cons x xs ih => simp [RollingBitWindow.runTrace, ih]

/-- Reachability invariant of a RollingBitWindow driven from its
initial state: the configuration fields are constant, the inner counter
is the counter run over the same bits, and while the window is in
NotFilled its length counts the inserts so far, which are fewer than
MinLength. -/
theorem RollingBitWindow.reach_inv (M T : Nat) (hM : 1 ≤ M) (p : List Bool) :
    (((RollingBitWindow.init M T).runTrace p).1).MinLength = M ∧
    (((RollingBitWindow.init M T).runTrace p).1).SetBitsThreshold = T ∧
    (((RollingBitWindow.init M T).runTrace p).1).RBC = RollingBitCounter.run M p ∧
    ((((RollingBitWindow.init M T).runTrace p).1).CurrState = WState.NotFilled →
      (((RollingBitWindow.init M T).runTrace p).1).CurrLength = p.length ∧
        p.length < M) := by
  induction p using List.reverseRecOn with
  | nil =>
      refine ⟨rfl, rfl, rfl, fun _ => ⟨rfl, by simpa using hM⟩⟩
  | append_singleton p b ih =>
      obtain ⟨hM1, hT1, hR1, hNF1⟩ := ih
      have hfst : ((RollingBitWindow.init M T).runTrace (p ++ [b])).1
          = ((((RollingBitWindow.init M T).runTrace p).1).insert b).1 := by
        rw [RollingBitWindow.runTrace_append]
        simp [RollingBitWindow.runTrace]
      rw [hfst]
      refine ⟨?_, ?_, ?_, ?_⟩
      · rw [RollingBitWindow.insert_MinLength]; exact hM1
      · rw [RollingBitWindow.insert_SetBitsThreshold]; exact hT1
      · rw [RollingBitWindow.insert_RBC, hR1, RollingBitCounter.run_append]
      · intro hNS
        rw [RollingBitWindow.insert_edge_snd] at hNS
        rcases hs : (((RollingBitWindow.init M T).runTrace p).1).CurrState with _ | _ | _
        · -- NotFilled before the insert
          by_cases hfill :
              ((((RollingBitWindow.init M T).runTrace p).1).RBC.insert b).isFilled = true
          · by_cases hpop :
                ((((RollingBitWindow.init M T).runTrace p).1).RBC.insert b).NumSetBits
                  < (((RollingBitWindow.init M T).runTrace p).1).SetBitsThreshold
            · simp [RollingBitWindow.insert, hs, hfill, hpop] at hNS
            · simp [RollingBitWindow.insert, hs, hfill, hpop] at hNS
          · -- still NotFilled: the (NotFilled, NotFilled) action increments
            obtain ⟨hlen, hlt⟩ := hNF1 hs
            have hcount : (((RollingBitWindow.init M T).runTrace p).1).RBC.N
                = p.length := by
              rw [hR1, RollingBitCounter.run_N]
            have hcap : (((RollingBitWindow.init M T).runTrace p).1).RBC.V.length
                = M := by
              rw [hR1, RollingBitCounter.run_V_length]
            have hnotfull : ¬ M ≤ p.length + 1 := by
              intro hcontra
              apply hfill
              simp [RollingBitCounter.isFilled, RollingBitCounter.insert, hcount, hcap]
              omega
            constructor
            · simp [RollingBitWindow.insert, RollingBitWindow.applyAction, hs, hfill, hlen]
            · simp
              omega
        · -- BelowThreshold never transitions back to NotFilled
          by_cases hpop :
              (((RollingBitWindow.init M T).runTrace p).1).SetBitsThreshold
                ≤ ((((RollingBitWindow.init M T).runTrace p).1).RBC.insert b).NumSetBits
          · simp [RollingBitWindow.insert, hs, hpop] at hNS
          · simp [RollingBitWindow.insert, hs, hpop] at hNS
        · -- AboveThreshold never transitions back to NotFilled
          by_cases hpop :
              ((((RollingBitWindow.init M T).runTrace p).1).RBC.insert b).NumSetBits
                < (((RollingBitWindow.init M T).runTrace p).1).SetBitsThreshold
          · simp [RollingBitWindow.insert, hs, hpop] at hNS
          · simp [RollingBitWindow.insert, hs, hpop] at hNS

/-- If an insert from AboveThreshold reports the roundtrip edge, the
popcount stayed at or above the threshold. -/
theorem RollingBitWindow.above_keep_of_edge (w : RollingBitWindow) (b : Bool)
    (hAT : w.CurrState = WState.AboveThreshold)
    (hedge : (w.insert b).2.1 = (WState.AboveThreshold, WState.AboveThreshold)) :
    ¬ (w.RBC.insert b).NumSetBits < w.SetBitsThreshold := by
  intro hcond
  simp [RollingBitWindow.insert, hAT, hcond] at hedge

/-- One (AboveThreshold, AboveThreshold) tick: the returned previous
length is the pre-insert length and the stored length increments. -/
theorem RollingBitWindow.insert_above_step (w : RollingBitWindow) (b : Bool)
    (hAT : w.CurrState = WState.AboveThreshold)
    (hkeep : ¬ (w.RBC.insert b).NumSetBits < w.SetBitsThreshold) :
    (w.insert b).2.1 = (WState.AboveThreshold, WState.AboveThreshold) ∧
    (w.insert b).2.2 = w.CurrLength ∧
    ((w.insert b).1).CurrLength = w.CurrLength + 1 ∧
    ((w.insert b).1).CurrState = WState.AboveThreshold := by
  refine ⟨?_, RollingBitWindow.insert_returns_prev w b, ?_, ?_⟩ <;>
    simp [RollingBitWindow.insert, RollingBitWindow.applyAction, hAT, hkeep]

/-- An insert whose edge enters AboveThreshold from a different state
leaves the stored length at MinLength (for a window driven from its
initial state). -/
theorem RollingBitWindow.entry_length (M T : Nat) (hM : 1 ≤ M) (p : List Bool) (b : Bool)
    (hsnd : ((((RollingBitWindow.init M T).runTrace p).1).insert b).2.1.2
        = WState.AboveThreshold)
    (hfst : ((((RollingBitWindow.init M T).runTrace p).1).insert b).2.1.1
        ≠ WState.AboveThreshold) :
    ((((RollingBitWindow.init M T).runTrace p).1).insert b).1.CurrLength = M := by
  obtain ⟨hM1, hT1, hR1, hNF1⟩ := RollingBitWindow.reach_inv M T hM p
  rw [RollingBitWindow.insert_edge_fst] at hfst
  rcases hs : (((RollingBitWindow.init M T).runTrace p).1).CurrState with _ | _ | _
  · -- entering from NotFilled: the counter filled at exactly M inserts
    by_cases hfill :
        ((((RollingBitWindow.init M T).runTrace p).1).RBC.insert b).isFilled = true
    · by_cases hpop :
          ((((RollingBitWindow.init M T).runTrace p).1).RBC.insert b).NumSetBits
            < (((RollingBitWindow.init M T).runTrace p).1).SetBitsThreshold
      · simp [RollingBitWindow.insert, hs, hfill, hpop] at hsnd
      · obtain ⟨hlen, hlt⟩ := hNF1 hs
        have hcount : (((RollingBitWindow.init M T).runTrace p).1).RBC.N
            = p.length := by
          rw [hR1, RollingBitCounter.run_N]
        have hcap : (((RollingBitWindow.init M T).runTrace p).1).RBC.V.length
            = M := by
          rw [hR1, RollingBitCounter.run_V_length]
        have hfull : M ≤ p.length + 1 := by
          simpa [RollingBitCounter.isFilled, RollingBitCounter.insert, hcount, hcap]
            using hfill
        have : ((((RollingBitWindow.init M T).runTrace p).1).insert b).1.CurrLength
            = p.length + 1 := by
          simp [RollingBitWindow.insert, RollingBitWindow.applyAction, hs, hfill,
            hpop, hlen]
        rw [this]
        omega
    · simp [RollingBitWindow.insert, hs, hfill] at hsnd
  · -- entering from BelowThreshold: the action resets to MinLength
    by_cases hpop :
        (((RollingBitWindow.init M T).runTrace p).1).SetBitsThreshold
          ≤ ((((RollingBitWindow.init M T).runTrace p).1).RBC.insert b).NumSetBits
    · have : ((((RollingBitWindow.init M T).runTrace p).1).insert b).1.CurrLength
          = (((RollingBitWindow.init M T).runTrace p).1).MinLength := by
        simp [RollingBitWindow.insert, RollingBitWindow.applyAction, hs, hpop]
      rw [this, hM1]
    · simp [RollingBitWindow.insert, hs, hpop] at hsnd
  · exact absurd hs hfst

/-- A run of (AboveThreshold, AboveThreshold) ticks: the reported
previous lengths increase by exactly 1 per insert, starting from the
pre-run length, and the stored length grows by the number of ticks. -/
theorem RollingBitWindow.above_run (bs : List Bool) :
    ∀ w : RollingBitWindow, w.CurrState = WState.AboveThreshold →
    (∀ r ∈ (w.runTrace bs).2,
        r.1 = (WState.AboveThreshold, WState.AboveThreshold)) →
    (w.runTrace bs).2 = (List.range bs.length).map
        (fun i => ((WState.AboveThreshold, WState.AboveThreshold),
          w.CurrLength + i)) ∧
    ((w.runTrace bs).1).CurrLength = w.CurrLength + bs.length ∧
    ((w.runTrace bs).1).CurrState = WState.AboveThreshold := by
  induction bs with
  | nil =>
      intro w hAT _
      exact ⟨by simp [RollingBitWindow.runTrace], by simp [RollingBitWindow.runTrace],
        by simpa [RollingBitWindow.runTrace] using hAT⟩
  | cons b bs ih =>
      intro w hAT hedges
      have hhead : (w.insert b).2.1
          = (WState.AboveThreshold, WState.AboveThreshold) :=
        hedges (w.insert b).2 (by simp [RollingBitWindow.runTrace])
      have hkeep := RollingBitWindow.above_keep_of_edge w b hAT hhead
      obtain ⟨he, hprev, hlen, hstate⟩ :=
        RollingBitWindow.insert_above_step w b hAT hkeep
      have htailedges : ∀ r ∈ (((w.insert b).1).runTrace bs).2,
          r.1 = (WState.AboveThreshold, WState.AboveThreshold) := by
        intro r hr
        exact hedges r (by simp [RollingBitWindow.runTrace]; right; exact hr)
      obtain ⟨htr, hlen2, hst2⟩ := ih (w.insert b).1 hstate htailedges
      refine ⟨?_, ?_, ?_⟩
      · show (w.insert b).2 :: (((w.insert b).1).runTrace bs).2 = _
        rw [htr, hlen]
        have hpair : (w.insert b).2
            = ((WState.AboveThreshold, WState.AboveThreshold), w.CurrLength) := by
          rcases hp : (w.insert b).2 with ⟨e, L⟩
          rw [hp] at he hprev
          simp at he hprev
          rw [he, hprev]
        rw [hpair]
        simp only [List.length_cons]
        rw [List.range_succ_eq_map, List.map_cons, List.map_map]
        congr 1
        apply List.map_congr_left
        intro i _
        simp [Function.comp]
        omega
      · show (((w.insert b).1).runTrace bs).1.CurrLength = _
        rw [hlen2, hlen]
        simp
        omega
      · exact hst2

/-- The first detectOnce sweep unrolled: appended updated dimensions and
the summed anomaly bits. -/
theorem foldl_detectStep (R : Bool) (dims : List (MLDim × Bool))
    (acc : List MLDim × Nat) :
    dims.foldl (detectStep R) acc
      = (acc.1 ++ dims.map (fun db =>
            let d0 := if R then { db.1 with det := db.1.det.reset } else db.1
            { d0 with det := (d0.det.detect db.2).1 }),
         acc.2 + (dims.map (fun db => if db.2 then 1 else 0)).sum) := by
  induction dims generalizing acc with
  | nil => simp
  | cons db dims ih =>
      rw [List.foldl_cons, ih]
      simp [detectStep, DetectableDimension.detect, Nat.add_assoc]

/-- The second detectOnce sweep unrolled: snapshotted dimensions and the
kept (rate, id) pairs in dimension order. -/
theorem foldl_rateStep (T : Rat) (L : Nat) (dims : List MLDim)
    (acc : List MLDim × List (Rat × Nat)) :
    dims.foldl (rateStep T L) acc
      = (acc.1 ++ dims.map (fun d => { d with det := (d.det.anomalyRate L).2 }),
         acc.2 ++ dims.filterMap (fun d =>
            if (d.det.anomalyRate L).1 < T then none
            else some ((d.det.anomalyRate L).1, d.id))) := by
  induction dims generalizing acc with
  | nil => simp
  | cons d dims ih =>
      rw [List.foldl_cons, ih]
      by_cases h : (d.det.anomalyRate L).1 < T
      · simp [rateStep, h]
      · simp [rateStep, h]

/-- The output of sortDescending is sorted by descending rate. -/
theorem sortDescending_sorted_rate (l : List (Rat × Nat)) :
    (sortDescending l).Sorted (fun a b => b.1 ≤ a.1) := by
  have hs : (l.insertionSort pairLe).Sorted pairLe :=
    List.sorted_insertionSort pairLe l
  have hr : (sortDescending l).Sorted (fun a b => pairLe b a) := by
    unfold sortDescending
    exact List.pairwise_reverse.mpr hs
  refine hr.imp ?_
  intro a b hab
  rcases hab with h | ⟨h, _⟩
  · exact le_of_lt h
  · exact le_of_eq h

/-- The rate a dimension reports in the event sweep, expressed against
its pre-tick state: detect() has just added this tick's bit to the
tally, so anomalyRate(L) divides the post-detect tally by L.  This is
exactly eventCandidate. -/
theorem eventCandidate_after_detect (cfg : DetectConfig) (L : Nat) :
    ((fun d : MLDim =>
        if (d.det.anomalyRate L).1 < cfg.ADUnitRateThreshold then none
        else some ((d.det.anomalyRate L).1, d.id)) ∘
      (fun db : MLDim × Bool => { id := db.1.id, det := (db.1.det.detect db.2).1 }))
    = eventCandidate cfg L := by
  funext db
  simp [Function.comp, DetectableDimension.anomalyRate, DetectableDimension.detect,
    eventCandidate]

/-- A DSample always has exactly the size handed to set_size. -/
theorem mkDSample_length (size : Nat) (content : List Rat) :
    (mkDSample size content).length = size := by
  simp [mkDSample]
  omega

/-- diffSamples only rewrites the buffer. -/
theorem SamplesBuffer.diffSamples_NumSamples (sb : SamplesBuffer) :
    sb.diffSamples.NumSamples = sb.NumSamples := rfl

/-- diffSamples keeps the column count. -/
theorem SamplesBuffer.diffSamples_NumDimsPerSample (sb : SamplesBuffer) :
    sb.diffSamples.NumDimsPerSample = sb.NumDimsPerSample := rfl

/-- diffSamples keeps the configuration. -/
theorem SamplesBuffer.diffSamples_SmoothN (sb : SamplesBuffer) :
    sb.diffSamples.SmoothN = sb.SmoothN := rfl

/-- diffSamples keeps the configuration. -/
theorem SamplesBuffer.diffSamples_LagN (sb : SamplesBuffer) :
    sb.diffSamples.LagN = sb.LagN := rfl

/-- smoothSamples only rewrites the buffer. -/
theorem SamplesBuffer.smoothSamples_NumSamples (sb : SamplesBuffer) :
    sb.smoothSamples.NumSamples = sb.NumSamples := rfl

/-- smoothSamples keeps the column count. -/
theorem SamplesBuffer.smoothSamples_NumDimsPerSample (sb : SamplesBuffer) :
    sb.smoothSamples.NumDimsPerSample = sb.NumDimsPerSample := rfl

/-- smoothSamples keeps the configuration. -/
theorem SamplesBuffer.smoothSamples_LagN (sb : SamplesBuffer) :
    sb.smoothSamples.LagN = sb.LagN := rfl

end ml

/-- C2: for every capacity C >= 1 and every inserted bit sequence, the
maintained popcount NumSetBits equals the number of set bits among the
bits currently held in the window (the last min(n, C) inserted bits,
here expressed as drop (n - C)), the window contents are exactly those
bits, and isFilled holds iff the number of inserts is at least C.
Quantifying over all sequences covers the state after each insert. -/
theorem C2_counter_popcount_invariant (C : Nat) (hC : 1 ≤ C) (bs : List Bool) :
    (ml.RollingBitCounter.run C bs).NumSetBits
        = (bs.drop (bs.length - C)).count true ∧
    (ml.RollingBitCounter.run C bs).getBuffer = bs.drop (bs.length - C) ∧
    ((ml.RollingBitCounter.run C bs).isFilled = true ↔ C ≤ bs.length) := by
  refine ⟨ml.RollingBitCounter.run_NumSetBits C hC bs,
    ml.RollingBitCounter.run_getBuffer C hC bs, ?_⟩
  simp [ml.RollingBitCounter.isFilled, ml.RollingBitCounter.run_N,
    ml.RollingBitCounter.run_V_length]

/-- Witness for C2 at capacity 4 on the S4 bit stream. -/
theorem C2_counter_popcount_invariant_witness :
    (ml.RollingBitCounter.run 4 ml.specStream).NumSetBits
        = (ml.specStream.drop (ml.specStream.length - 4)).count true ∧
    (ml.RollingBitCounter.run 4 ml.specStream).getBuffer
        = ml.specStream.drop (ml.specStream.length - 4) ∧
    ((ml.RollingBitCounter.run 4 ml.specStream).isFilled = true ↔
      4 ≤ ml.specStream.length) :=
  C2_counter_popcount_invariant 4 (by decide) ml.specStream

/-- C1: for the bit stream [0,0,1,1,0,1,0,0,0,1,0,1,0,0] fed into a
RollingBitWindow with MinLength = 4, the previous lengths reported at
(AboveThreshold, BelowThreshold) falling edges are [7, 5] for set-bits
threshold 2, [4] for threshold 3, and [] for threshold 4. -/
theorem C1_fallingLengths_spec_stream :
    ml.RollingBitWindow.fallingLengths 4 2 ml.specStream = [7, 5] ∧
    ml.RollingBitWindow.fallingLengths 4 3 ml.specStream = [4] ∧
    ml.RollingBitWindow.fallingLengths 4 4 ml.specStream = [] := by
  refine ⟨by decide, by decide, by decide⟩

/-- C6 counterexample: the claimed bound rate <= 1 fails.  After two
detect() calls that both observe an anomalous bit (tally = 2), the
interleaving calls anomaly_rate(1), which returns 2/1 = 2 > 1. -/
theorem C6_rate_above_one_counterexample :
    1 < ((ml.DetectableDimension.runOps 4
        [ml.DimOp.detect true, ml.DimOp.detect true]).anomalyRate 1).1 ∧
    ((ml.DetectableDimension.runOps 4
        [ml.DimOp.detect true, ml.DimOp.detect true]).anomalyRate 1).1 = 2 := by
  constructor <;>
    norm_num [ml.DetectableDimension.runOps, ml.DetectableDimension.detect,
      ml.DetectableDimension.init, ml.DetectableDimension.anomalyRate]

/-- C6 (amended): for every dimension, every window_length >= 1 and
every interleaving of detect/reset/anomaly_rate calls, anomaly_rate
returns tally / window_length, which is nonnegative but need not be at
most 1, and afterwards the tally is snapshotted to the counter's
current popcount. -/
theorem C6_anomaly_rate_amended (DiffN : Nat) (ops : List ml.DimOp) (L : Nat)
    (hL : 1 ≤ L) :
    ((ml.DetectableDimension.runOps DiffN ops).anomalyRate L).1
        = ((ml.DetectableDimension.runOps DiffN ops).BitCounter : Rat) / (L : Rat) ∧
    0 ≤ ((ml.DetectableDimension.runOps DiffN ops).anomalyRate L).1 ∧
    ((ml.DetectableDimension.runOps DiffN ops).anomalyRate L).2.BitCounter
        = (ml.DetectableDimension.runOps DiffN ops).RBC.NumSetBits := by
  refine ⟨rfl, ?_, rfl⟩
  exact div_nonneg (by positivity) (by positivity)

/-- Witness for C6 (amended) at DiffN = 4 on a small interleaving. -/
theorem C6_anomaly_rate_amended_witness :
    ((ml.DetectableDimension.runOps 4
        [ml.DimOp.detect true, ml.DimOp.reset, ml.DimOp.rate 3]).anomalyRate 2).1
      = ((ml.DetectableDimension.runOps 4
        [ml.DimOp.detect true, ml.DimOp.reset, ml.DimOp.rate 3]).BitCounter : Rat)
          / (2 : Rat) ∧
    0 ≤ ((ml.DetectableDimension.runOps 4
        [ml.DimOp.detect true, ml.DimOp.reset, ml.DimOp.rate 3]).anomalyRate 2).1 ∧
    ((ml.DetectableDimension.runOps 4
        [ml.DimOp.detect true, ml.DimOp.reset, ml.DimOp.rate 3]).anomalyRate 2).2.BitCounter
      = (ml.DetectableDimension.runOps 4
        [ml.DimOp.detect true, ml.DimOp.reset, ml.DimOp.rate 3]).RBC.NumSetBits :=
  C6_anomaly_rate_amended 4 [ml.DimOp.detect true, ml.DimOp.reset, ml.DimOp.rate 3] 2
    (by decide)

/-- C10: the per-dimension rolling bit counter driven by detect() is
constructed with capacity Cfg.DiffN; after any sequence of detect()
calls it holds exactly the DiffN most recent anomaly bits and its
popcount never exceeds DiffN. -/
theorem C10_detector_counter_capacity (DiffN : Nat) (hD : 1 ≤ DiffN)
    (bits : List Bool) :
    (ml.dimDetectRun DiffN bits).RBC.V.length = DiffN ∧
    (ml.dimDetectRun DiffN bits).RBC.getBuffer
        = bits.drop (bits.length - DiffN) ∧
    (ml.dimDetectRun DiffN bits).RBC.NumSetBits ≤ DiffN := by
  rw [ml.dimDetectRun_RBC]
  refine ⟨ml.RollingBitCounter.run_V_length DiffN bits,
    ml.RollingBitCounter.run_getBuffer DiffN hD bits, ?_⟩
  rw [ml.RollingBitCounter.run_NumSetBits DiffN hD bits]
  calc (bits.drop (bits.length - DiffN)).count true
      ≤ (bits.drop (bits.length - DiffN)).length := List.count_le_length _ _
    _ ≤ DiffN := by rw [List.length_drop]; omega

/-- Witness for C10 at DiffN = 2 on the S4 bit stream. -/
theorem C10_detector_counter_capacity_witness :
    (ml.dimDetectRun 2 ml.specStream).RBC.V.length = 2 ∧
    (ml.dimDetectRun 2 ml.specStream).RBC.getBuffer
        = ml.specStream.drop (ml.specStream.length - 2) ∧
    (ml.dimDetectRun 2 ml.specStream).RBC.NumSetBits ≤ 2 :=
  C10_detector_counter_capacity 2 (by decide) ml.specStream

/-- C9 counterexample: with MinLength = 4 and threshold 1, the stream
[1,1,1,1,1] enters AboveThreshold at the 4th insert (edge (NotFilled,
AboveThreshold)); the 5th insert is the first (AboveThreshold,
AboveThreshold) tick of the run, and it returns previous_length 4 =
MinLength, not MinLength + 1 = 5 as the claim states for k = 1. -/
theorem C9_first_above_tick_counterexample :
    (((ml.RollingBitWindow.init 4 1).runTrace
        [true, true, true, true, true]).2.getD 3
        ((ml.WState.NotFilled, ml.WState.NotFilled), 0))
      = ((ml.WState.NotFilled, ml.WState.AboveThreshold), 3) ∧
    (((ml.RollingBitWindow.init 4 1).runTrace
        [true, true, true, true, true]).2.getD 4
        ((ml.WState.NotFilled, ml.WState.NotFilled), 0))
      = ((ml.WState.AboveThreshold, ml.WState.AboveThreshold), 4) ∧
    (4 : Nat) ≠ 4 + 1 := by
  refine ⟨by decide, by decide, by decide⟩

/-- C9 (amended): in a contiguous run of (AboveThreshold,
AboveThreshold) ticks that starts when the window enters AboveThreshold,
the previous_length values returned by insert increase by exactly 1 per
insert; the k-th such tick returns MinLength + k - 1, and the captured
length after the k-th tick (the value a following falling edge would
report) is MinLength + k. -/
theorem C9_above_run_lengths_amended (M T : Nat) (hM : 1 ≤ M) (p : List Bool)
    (b : Bool) (bs : List Bool)
    (hsnd : ((((ml.RollingBitWindow.init M T).runTrace p).1).insert b).2.1.2
        = ml.WState.AboveThreshold)
    (hfst : ((((ml.RollingBitWindow.init M T).runTrace p).1).insert b).2.1.1
        ≠ ml.WState.AboveThreshold)
    (hedges : ∀ r ∈
        (((((ml.RollingBitWindow.init M T).runTrace p).1).insert b).1.runTrace bs).2,
        r.1 = (ml.WState.AboveThreshold, ml.WState.AboveThreshold)) :
    (((((ml.RollingBitWindow.init M T).runTrace p).1).insert b).1.runTrace bs).2
        = (List.range bs.length).map
            (fun i => ((ml.WState.AboveThreshold, ml.WState.AboveThreshold), M + i)) ∧
    ((((((ml.RollingBitWindow.init M T).runTrace p).1).insert b).1.runTrace bs).1).CurrLength
        = M + bs.length := by
  have hstate : ((((ml.RollingBitWindow.init M T).runTrace p).1).insert b).1.CurrState
      = ml.WState.AboveThreshold := by
    rw [ml.RollingBitWindow.insert_edge_snd]
    exact hsnd
  have hlen := ml.RollingBitWindow.entry_length M T hM p b hsnd hfst
  obtain ⟨h1, h2, _⟩ := ml.RollingBitWindow.above_run bs _ hstate hedges
  rw [hlen] at h1 h2
  exact ⟨h1, h2⟩

/-- Witness for C9 (amended): MinLength 4, threshold 1, entry after
[1,1,1] via bit 1, then two roundtrip ticks reporting 4 and 5. -/
theorem C9_above_run_lengths_amended_witness :
    (((((ml.RollingBitWindow.init 4 1).runTrace [true, true, true]).1).insert
        true).1.runTrace [true, true]).2
      = (List.range ([true, true] : List Bool).length).map
          (fun i => ((ml.WState.AboveThreshold, ml.WState.AboveThreshold), 4 + i)) ∧
    ((((((ml.RollingBitWindow.init 4 1).runTrace [true, true, true]).1).insert
        true).1.runTrace [true, true]).1).CurrLength
      = 4 + ([true, true] : List Bool).length :=
  C9_above_run_lengths_amended 4 1 (by decide) [true, true, true] true [true, true]
    (by decide) (by decide) (by decide)

/-- C4 counterexample: a train() call that passes the NotDue check and
fails with MissingData still advances LastTrainedAt to Now, because
Unit.cc assigns LastTrainedAt = Now before fetching any data; the
claimed "last_trained_at keeps its prior value" is false. -/
theorem C4_last_trained_at_counterexample :
    (ml.trainState0.train true 10 5 1 [] 0).1 = ml.MLError.MissingData ∧
    (ml.trainState0.train true 10 5 1 [] 0).2.LastTrainedAt = 10 ∧
    ml.trainState0.LastTrainedAt = 0 ∧
    (10 : Int) ≠ 0 := by
  refine ⟨rfl, rfl, rfl, by decide⟩

/-- C4 (amended): when train(now) returns InsufficientData, the model,
HasModel, the anomaly bit and the anomaly score keep their prior
values, but last_trained_at has already been set to now: it is updated
on every attempt that passes the NotDue check, not only on Success. -/
theorem C4_missing_data_amended (d : ml.TrainableDimension) (lockFree : Bool)
    (Now TrainEvery : Int) (MinN : Nat) (CNs : List Rat) (N : Nat)
    (hres : (d.train lockFree Now TrainEvery MinN CNs N).1
        = ml.MLError.MissingData) :
    (d.train lockFree Now TrainEvery MinN CNs N).2.KM = d.KM ∧
    (d.train lockFree Now TrainEvery MinN CNs N).2.HasModel = d.HasModel ∧
    (d.train lockFree Now TrainEvery MinN CNs N).2.AnomalyBit = d.AnomalyBit ∧
    (d.train lockFree Now TrainEvery MinN CNs N).2.AnomalyScore = d.AnomalyScore ∧
    (d.train lockFree Now TrainEvery MinN CNs N).2.LastTrainedAt = Now := by
  unfold ml.TrainableDimension.train at hres ⊢
  split_ifs at hres ⊢
  all_goals simp_all

/-- Witness for C4 (amended) at a concrete failing training attempt. -/
theorem C4_missing_data_amended_witness :
    (ml.trainState0.train true 10 5 1 [] 0).2.KM = ml.trainState0.KM ∧
    (ml.trainState0.train true 10 5 1 [] 0).2.HasModel = ml.trainState0.HasModel ∧
    (ml.trainState0.train true 10 5 1 [] 0).2.AnomalyBit = ml.trainState0.AnomalyBit ∧
    (ml.trainState0.train true 10 5 1 [] 0).2.AnomalyScore
        = ml.trainState0.AnomalyScore ∧
    (ml.trainState0.train true 10 5 1 [] 0).2.LastTrainedAt = 10 :=
  C4_missing_data_amended ml.trainState0 true 10 5 1 [] 0 rfl

/-- C5 counterexample: predict() computes N = DiffN + SmoothN + LagN
(9 for DiffN=1, SmoothN=3, LagN=5), not DiffN + SmoothN + LagN + 1, and
succeeds when exactly 9 samples are fetched. -/
theorem C5_sample_count_counterexample :
    ml.predictSampleCount 1 3 5 = 9 ∧
    ¬ (ml.predictSampleCount 1 3 5 = 1 + 3 + 5 + 1) ∧
    (ml.TrainableDimension.predict
        { ml.trainState0 with HasModel := true } true 1 3 5 1
        (List.replicate 9 0) 9 (fun _ => 0)).1 = ml.MLError.Success := by
  refine ⟨by decide, by decide, rfl⟩

/-- C5 (amended): on every call that passes the lock and model checks,
predict() requests exactly DiffN + SmoothN + LagN most recent samples
(the minimum yielding one preprocessed row), and returns the current
bit with the insufficient-data error when the fetch does not produce
exactly that many. -/
theorem C5_predict_request_amended (DiffN SmoothN LagN : Nat) (T : Rat)
    (d : ml.TrainableDimension) (CNs : List Rat) (N : Nat)
    (score : List Rat → Rat)
    (hm : d.HasModel = true)
    (hn : N ≠ ml.predictSampleCount DiffN SmoothN LagN) :
    ml.predictSampleCount DiffN SmoothN LagN = DiffN + SmoothN + LagN ∧
    d.predict true DiffN SmoothN LagN T CNs N score
      = (ml.MLError.MissingData, d.AnomalyBit, d) := by
  refine ⟨rfl, ?_⟩
  simp [ml.TrainableDimension.predict, hm, hn]

/-- Witness for C5 (amended): a dimension with a model and an empty
fetch. -/
theorem C5_predict_request_amended_witness :
    ml.predictSampleCount 1 3 5 = 1 + 3 + 5 ∧
    ml.TrainableDimension.predict
        { ml.trainState0 with HasModel := true } true 1 3 5 1 [] 0 (fun _ => 0)
      = (ml.MLError.MissingData,
         ({ ml.trainState0 with HasModel := true } : ml.TrainableDimension).AnomalyBit,
         { ml.trainState0 with HasModel := true }) :=
  C5_predict_request_amended 1 3 5 1 { ml.trainState0 with HasModel := true }
    [] 0 (fun _ => 0) rfl (by decide)

/-- C7 counterexample: ADWindowSize = 4 and ADWindowRateThreshold = 3/8
give the product 1.5; the static_cast in Host.h truncates it to 1,
whereas the claimed ceiling is 2. -/
theorem C7_threshold_truncation_counterexample :
    ml.rbwSetBitsThreshold 4 (3 / 8 : Rat) = 1 ∧
    Int.ceil ((4 : Rat) * (3 / 8 : Rat)) = 2 ∧
    (1 : Nat) ≠ 2 := by
  refine ⟨?_, ?_, by decide⟩
  · unfold ml.rbwSetBitsThreshold
    norm_num
  · rw [Int.ceil_eq_iff]
    norm_num

/-- C7 (amended): the host RollingBitWindow is constructed with
capacity ADWindowSize and a set-bits threshold equal to the floor
(truncation) of ADWindowSize * ADWindowRateThreshold; whenever the
product is not an integer the threshold is the ceiling minus one, i.e.
it rounds down, not up. -/
theorem C7_host_window_threshold_amended (ADWindowSize : Nat) (rate : Rat)
    (hr : 0 ≤ rate) :
    (ml.hostRBW ADWindowSize rate).MinLength = ADWindowSize ∧
    ((ml.hostRBW ADWindowSize rate).SetBitsThreshold : Int)
        = Int.floor ((ADWindowSize : Rat) * rate) ∧
    (Int.floor ((ADWindowSize : Rat) * rate)
        ≠ Int.ceil ((ADWindowSize : Rat) * rate) →
      ((ml.hostRBW ADWindowSize rate).SetBitsThreshold : Int)
          = Int.ceil ((ADWindowSize : Rat) * rate) - 1) := by
  have hnn : (0 : Rat) ≤ (ADWindowSize : Rat) * rate :=
    mul_nonneg (by positivity) hr
  have hfl : (0 : Int) ≤ Int.floor ((ADWindowSize : Rat) * rate) :=
    Int.floor_nonneg.mpr hnn
  have hth : ((ml.hostRBW ADWindowSize rate).SetBitsThreshold : Int)
      = Int.floor ((ADWindowSize : Rat) * rate) := by
    show ((ml.rbwSetBitsThreshold ADWindowSize rate : Nat) : Int) = _
    unfold ml.rbwSetBitsThreshold
    exact Int.toNat_of_nonneg hfl
  refine ⟨rfl, hth, ?_⟩
  intro hne
  have h1 : Int.floor ((ADWindowSize : Rat) * rate)
      ≤ Int.ceil ((ADWindowSize : Rat) * rate) :=
    Int.floor_le_ceil _
  have h2 : Int.ceil ((ADWindowSize : Rat) * rate)
      ≤ Int.floor ((ADWindowSize : Rat) * rate) + 1 :=
    Int.ceil_le_floor_add_one _
  omega

/-- Witness for C7 (amended) at ADWindowSize = 4, rate = 3/8. -/
theorem C7_host_window_threshold_amended_witness :
    (ml.hostRBW 4 (3 / 8 : Rat)).MinLength = 4 ∧
    ((ml.hostRBW 4 (3 / 8 : Rat)).SetBitsThreshold : Int)
        = Int.floor ((4 : Rat) * (3 / 8 : Rat)) ∧
    (Int.floor ((4 : Rat) * (3 / 8 : Rat)) ≠ Int.ceil ((4 : Rat) * (3 / 8 : Rat)) →
      ((ml.hostRBW 4 (3 / 8 : Rat)).SetBitsThreshold : Int)
          = Int.ceil ((4 : Rat) * (3 / 8 : Rat)) - 1) :=
  C7_host_window_threshold_amended 4 (3 / 8 : Rat) (by norm_num)

/-- C8 counterexample: the S5 instance of the claim is wrong: rows=20,
in_dims=1, DiffN=1, SmoothN=3, LagN=5 yields 20 - 1 - (3 - 1) - 5 = 12
output rows, not 11. -/
theorem C8_s5_row_count_counterexample :
    (ml.sbS5.preprocess).length = 12 ∧
    ¬ ((ml.sbS5.preprocess).length = 11) := by
  refine ⟨by decide, by decide⟩

/-- C8 (amended): preprocess() returns
max(0, rows - DiffN - (SmoothN - 1) - LagN) output rows (stated with
truncated Nat subtraction), each of length in_dims * (LagN + 1), and
the result is empty exactly when that count is 0; the S5 instance
rows=20, in_dims=1, DiffN=1, SmoothN=3, LagN=5 yields 12 rows (not 11)
of 6 columns. -/
theorem C8_preprocess_shape_amended (sb : ml.SamplesBuffer)
    (hS : 1 ≤ sb.SmoothN) :
    (sb.preprocess).length
        = sb.NumSamples - sb.DiffN - (sb.SmoothN - 1) - sb.LagN ∧
    (∀ row ∈ sb.preprocess,
        row.length = sb.NumDimsPerSample * (sb.LagN + 1)) ∧
    ((sb.preprocess = []) ↔
        sb.NumSamples - sb.DiffN - (sb.SmoothN - 1) - sb.LagN = 0) := by
  simp only [ml.SamplesBuffer.preprocess, ml.SamplesBuffer.diffSamples_NumSamples,
    ml.SamplesBuffer.diffSamples_NumDimsPerSample, ml.SamplesBuffer.diffSamples_SmoothN,
    ml.SamplesBuffer.diffSamples_LagN, ml.SamplesBuffer.smoothSamples_NumSamples,
    ml.SamplesBuffer.smoothSamples_NumDimsPerSample, ml.SamplesBuffer.smoothSamples_LagN]
  split_ifs with h1 h2 h3
  · refine ⟨by simp; omega, by simp, ?_⟩
    simp
    all_goals omega
  · rcases h2 with h2 | h2
    · omega
    · refine ⟨by simp; omega, by simp, ?_⟩
      simp
      all_goals omega
  · refine ⟨by simp; omega, by simp, ?_⟩
    simp
    all_goals omega
  · push_neg at h2
    refine ⟨?_, ?_, ?_⟩
    · simp
    · intro row hrow
      simp at hrow
      obtain ⟨Idx, _, hrow⟩ := hrow
      rw [← hrow]
      exact ml.mkDSample_length _ _
    · simp

/-- Witness for C8 (amended) on the S5 buffer: 12 rows of 6 columns. -/
theorem C8_preprocess_shape_amended_witness :
    (ml.sbS5.preprocess).length
        = ml.sbS5.NumSamples - ml.sbS5.DiffN - (ml.sbS5.SmoothN - 1) - ml.sbS5.LagN ∧
    (∀ row ∈ ml.sbS5.preprocess,
        row.length = ml.sbS5.NumDimsPerSample * (ml.sbS5.LagN + 1)) ∧
    ((ml.sbS5.preprocess = []) ↔
        ml.sbS5.NumSamples - ml.sbS5.DiffN - (ml.sbS5.SmoothN - 1) - ml.sbS5.LagN = 0) :=
  C8_preprocess_shape_amended ml.sbS5 (by decide)

/-- C3 counterexample: detectOnce observes a falling (AboveThreshold,
BelowThreshold) edge, but the host has no dimension whose rate reaches
ADUnitRateThreshold (here: no dimensions at all), so no record is
persisted, contradicting the claimed "exactly one record". -/
theorem C3_empty_event_counterexample :
    (ml.hostRBWEx.insert
        (decide (ml.hostCfgEx.AnomalyRateThreshold ≤ (0 : Rat)))).2.1
      = (ml.WState.AboveThreshold, ml.WState.BelowThreshold) ∧
    (ml.detectOnce ml.hostCfgEx ml.hostRBWEx 0 [] 100).2.2.2 = none := by
  have hbit : (decide (ml.hostCfgEx.AnomalyRateThreshold ≤ (0 : Rat))) = false := by
    norm_num [ml.hostCfgEx]
  constructor
  · rw [hbit]
    decide
  · simp only [ml.detectOnce, hbit]
    decide

/-- C3 (amended): when detectOnce observes the falling (AboveThreshold,
BelowThreshold) edge with captured previous length L and at least one
dimension qualifies, it persists exactly one record with after =
now - L, before = now, and payload the (rate, id) pairs with
post-detect rate at least ADUnitRateThreshold, sorted by descending
rate; when no dimension qualifies, nothing is persisted (shown by the
counterexample). -/
theorem C3_event_record_amended (cfg : ml.DetectConfig) (RBW : ml.RollingBitWindow)
    (AnomalyRate : Rat) (dims : List (ml.MLDim × Bool)) (Now : Int)
    (hedge : (RBW.insert (decide (cfg.AnomalyRateThreshold ≤ AnomalyRate))).2.1
        = (ml.WState.AboveThreshold, ml.WState.BelowThreshold))
    (hne : dims.filterMap
        (ml.eventCandidate cfg
          ((RBW.insert (decide (cfg.AnomalyRateThreshold ≤ AnomalyRate))).2.2)) ≠ []) :
    (ml.detectOnce cfg RBW AnomalyRate dims Now).2.2.2
      = some
          { after := Now
              - (((RBW.insert (decide (cfg.AnomalyRateThreshold ≤ AnomalyRate))).2.2
                  : Nat) : Int)
            before := Now
            payload := ml.sortDescending (dims.filterMap
              (ml.eventCandidate cfg
                ((RBW.insert (decide (cfg.AnomalyRateThreshold ≤ AnomalyRate))).2.2))) } ∧
    (ml.sortDescending (dims.filterMap
        (ml.eventCandidate cfg
          ((RBW.insert (decide (cfg.AnomalyRateThreshold ≤ AnomalyRate))).2.2)))).Sorted
      (fun a b => b.1 ≤ a.1) := by
  refine ⟨?_, ml.sortDescending_sorted_rate _⟩
  simp only [ml.detectOnce, hedge, ml.foldl_detectStep, ml.foldl_rateStep]
  simp only [decide_eq_true_eq]
  simp
  simp only [List.filterMap_map]
  rw [ml.eventCandidate_after_detect cfg
    ((RBW.insert (decide (cfg.AnomalyRateThreshold ≤ AnomalyRate))).2.2)]
  rw [if_neg hne]

/-- Witness for C3 (amended): a falling edge with window length 2 and
one dimension whose post-detect rate 3 passes the threshold 1. -/
theorem C3_event_record_amended_witness :
    (ml.detectOnce ml.hostCfgEx ml.hostRBWEx 0 [(ml.dimEx, true)] 100).2.2.2
      = some
          { after := (100 : Int)
              - (((ml.hostRBWEx.insert
                  (decide (ml.hostCfgEx.AnomalyRateThreshold ≤ (0 : Rat)))).2.2
                  : Nat) : Int)
            before := 100
            payload := ml.sortDescending ([(ml.dimEx, true)].filterMap
              (ml.eventCandidate ml.hostCfgEx
                ((ml.hostRBWEx.insert
                  (decide (ml.hostCfgEx.AnomalyRateThreshold ≤ (0 : Rat)))).2.2))) } ∧
    (ml.sortDescending ([(ml.dimEx, true)].filterMap
        (ml.eventCandidate ml.hostCfgEx
          ((ml.hostRBWEx.insert
            (decide (ml.hostCfgEx.AnomalyRateThreshold ≤ (0 : Rat)))).2.2)))).Sorted
      (fun a b => b.1 ≤ a.1) :=
  C3_event_record_amended ml.hostCfgEx ml.hostRBWEx 0 [(ml.dimEx, true)] 100
    (by decide)
    (by
      have hL : ((ml.hostRBWEx.insert
          (decide (ml.hostCfgEx.AnomalyRateThreshold ≤ (0 : Rat)))).2.2) = 2 := by
        decide
      rw [hL]
      norm_num [ml.eventCandidate, ml.hostCfgEx, ml.dimEx]
      simp)
